import Mathlib

/-!
Verification of the AMC Word-to-Excel extractor (`amc_streamlit_app.py`).

The extraction logic of the source file is shallowly embedded below.  Python
strings are modelled as `List Char` internally (with `String` wrappers at the
boundaries), the field dictionary as an insertion-ordered association list, and
each regular-expression search of the source as a dedicated scanner that tries
every start position from the left, exactly as `re.search` / `re.findall` do.
Where a regex could in principle backtrack, the matcher below implements the
closed form of the backtracking behaviour; a comment at each such place records
the argument that the closed form is equivalent.

Character classes: the source uses Python `re` on `str`, whose `\s`, `\w` and
case folding are Unicode-aware.  The embedding uses the ASCII fragment of those
classes (the patterns of the source contain only ASCII letters); inputs used in
concrete theorems below stay in the ASCII fragment, where the two agree.
-/

namespace W2X

/-- ASCII fragment of Python's `\s` class (also of `str.strip`). -/
def isPyWs (c : Char) : Bool :=
  c = ' ' || c = '\t' || c = '\n' || c = '\r' || c = '\x0b' || c = '\x0c'

/-- ASCII fragment of Python's `\w` class (letters, digits, underscore). -/
def isWordChar (c : Char) : Bool :=
  c.isAlphanum || c = '_'

/-- ASCII case folding, the fragment of `re.IGNORECASE` / `str.lower` used by
the source's patterns (which contain only ASCII letters). -/
def lowc (c : Char) : Char := c.toLower

/-- Python `str.strip` (ASCII whitespace fragment). -/
def pyStrip (s : List Char) : List Char :=
  ((s.dropWhile isPyWs).reverse.dropWhile isPyWs).reverse

/-- `str.strip` on `String`. -/
def pyStripS (s : String) : String := (pyStrip s.data).asString

/-- Python `str.lower` on `String` (ASCII fragment). -/
def pyLower (s : String) : String := (s.data.map lowc).asString

theorem data_asString (l : List Char) : l.asString.data = l := rfl

/-- If `pat` (given lower-case) is a case-insensitive prefix of `s`, return the
rest of `s` after it. -/
def ciRest : List Char → List Char → Option (List Char)
  | [], s => some s
  | _ :: _, [] => none
  | p :: ps, c :: cs => if lowc c = p then ciRest ps cs else none

/-- Case-sensitive version of `ciRest`. -/
def csRest : List Char → List Char → Option (List Char)
  | [], s => some s
  | _ :: _, [] => none
  | p :: ps, c :: cs => if c = p then csRest ps cs else none

/-- Try `f` at every start position of `s` from the left and keep the first
success: the search order of `re.search`. -/
def scanOpt {α : Type} (f : List Char → Option α) : List Char → Option α
  | [] => f []
  | c :: rest =>
    match f (c :: rest) with
    | some x => some x
    | none => scanOpt f rest

/-- Case-insensitive substring test (`re.search` on a literal pattern with
`re.IGNORECASE`, or `x in s.upper()` of the source). -/
def containsCI (pat : List Char) (s : List Char) : Bool :=
  (scanOpt (ciRest pat) s).isSome

/-- Python `s.split(sep)[0]` (case-sensitive): the part before the first
occurrence of `sep`, or all of `s` when `sep` does not occur. -/
def beforeSub (sep : List Char) : List Char → List Char
  | [] => []
  | c :: rest =>
    if (csRest sep (c :: rest)).isSome then []
    else c :: beforeSub sep rest

/-- Python `re.sub(r'\s+', ' ', s)`: each maximal whitespace run becomes a
single space. -/
def collapseWs : List Char → List Char
  | [] => []
  | [c] => if isPyWs c then [' '] else [c]
  | c :: rest@(c2 :: _) =>
    if isPyWs c then
      if isPyWs c2 then collapseWs rest else ' ' :: collapseWs rest
    else c :: collapseWs rest

/-- Split at every newline, keeping a (possibly empty) final piece. -/
def splitNl : List Char → List (List Char)
  | [] => [[]]
  | '\n' :: rest => [] :: splitNl rest
  | c :: rest =>
    match splitNl rest with
    | p :: ps => (c :: p) :: ps
    | [] => [[c]]

/-- Python `str.splitlines` restricted to `'\n'` separators (the loader joins
paragraphs with `'\n'`): like `splitNl` but with no trailing empty piece and
`[]` on the empty string. -/
def pySplitlines (s : List Char) : List (List Char) :=
  match s with
  | [] => []
  | _ =>
    let ps := splitNl s
    if ps.getLast? = some [] then ps.dropLast else ps

/-- Values of the `fields` dict of `extract_details`: strings, except the
integer `Service Frequency`. -/
inductive FieldVal : Type
  | str (s : String)
  | int (n : Int)
deriving DecidableEq, Repr

/-- The `fields` dict: an insertion-ordered association list, as in Python. -/
abbrev Record := List (String × FieldVal)

/-- Python dict assignment `d[k] = v`: replace in place if the key is present,
otherwise append. -/
def setField : Record → String → FieldVal → Record
  | [], k, v => [(k, v)]
  | (k', v') :: rest, k, v =>
    if k' = k then (k', v) :: rest else (k', v') :: setField rest k v

/-- Python dict read `d[k]`. -/
def lookupField : Record → String → Option FieldVal
  | [], _ => none
  | (k', v') :: rest, k => if k' = k then some v' else lookupField rest k

theorem lookupField_setField_self (r : Record) (k : String) (v : FieldVal) :
    lookupField (setField r k v) k = some v := by
  induction r with
  | nil => simp [setField, lookupField]
  | cons p rest ih =>
    obtain ⟨k', v'⟩ := p
    by_cases h : k' = k
    · simp [setField, lookupField, h]
    · simp [setField, lookupField, h, ih]

theorem lookupField_setField_ne (r : Record) (k k2 : String) (v : FieldVal)
    (h : k2 ≠ k) : lookupField (setField r k2 v) k = lookupField r k := by
  induction r with
  | nil => simp [setField, lookupField, h]
  | cons p rest ih =>
    obtain ⟨k', v'⟩ := p
    by_cases h2 : k' = k2
    · simp [setField, lookupField, h2, h]
    · simp [setField, lookupField, h2, ih]

theorem map_fst_setField_of_mem (r : Record) (k : String) (v : FieldVal)
    (h : k ∈ r.map Prod.fst) : (setField r k v).map Prod.fst = r.map Prod.fst := by
  induction r with
  | nil => simp at h
  | cons p rest ih =>
    obtain ⟨k', v'⟩ := p
    by_cases h2 : k' = k
    · simp [setField, h2]
    · simp only [List.map_cons, List.mem_cons] at h
      rcases h with h | h
      · exact absurd h.symm h2
      · simp [setField, h2, ih h]

theorem mem_setField (r : Record) (k : String) (v : FieldVal) (p : String × FieldVal)
    (h : p ∈ setField r k v) : p ∈ r ∨ p = (k, v) := by
  induction r with
  | nil => simp [setField] at h; simp [h]
  | cons q rest ih =>
    obtain ⟨k', v'⟩ := q
    by_cases h2 : k' = k
    · subst h2
      simp [setField] at h
      rcases h with h | h
      · right; rw [h]
      · left; simp [h]
    · simp [setField, h2] at h
      rcases h with h | h
      · left; simp [h]
      · rcases ih h with h3 | h3
        · left; simp [h3]
        · right; exact h3

/-! ## Dates -/

/-- A calendar date as produced by `datetime.strptime(s, '%d.%m.%Y')`. -/
structure PDate : Type where
  year : Nat
  month : Nat
  day : Nat
deriving DecidableEq, Repr

def isLeap (y : Nat) : Bool := y % 4 = 0 && (y % 100 ≠ 0 || y % 400 = 0)

def daysInMonth (y m : Nat) : Nat :=
  if m = 2 then (if isLeap y then 29 else 28)
  else if m = 4 || m = 6 || m = 9 || m = 11 then 30
  else 31

def digitVal (c : Char) : Nat := c.toNat - 48

/-- `datetime.strptime(s, '%d.%m.%Y')`: strict parse of a `dd.mm.yyyy` string.
`strptime` rejects day `00` and month `00` at the format level, and
`datetime` itself requires `1 ≤ year` and a day valid for the month. -/
def parseDate : List Char → Option PDate
  | [d1, d2, '.', m1, m2, '.', y1, y2, y3, y4] =>
    if d1.isDigit && d2.isDigit && m1.isDigit && m2.isDigit
        && y1.isDigit && y2.isDigit && y3.isDigit && y4.isDigit then
      let day := digitVal d1 * 10 + digitVal d2
      let mon := digitVal m1 * 10 + digitVal m2
      let yr := digitVal y1 * 1000 + digitVal y2 * 100 + digitVal y3 * 10 + digitVal y4
      if 1 ≤ day && 1 ≤ mon && mon ≤ 12 && 1 ≤ yr && day ≤ daysInMonth yr mon then
        some ⟨yr, mon, day⟩
      else none
    else none
  | _ => none

def pad2 (n : Nat) : String := if n < 10 then "0" ++ Nat.repr n else Nat.repr n

/-- `strftime('%d-%m-%Y')` (`%Y` unpadded, as on glibc; all dates reaching it
here have four-digit years anyway). -/
def strftimeDMY (d : PDate) : String :=
  pad2 d.day ++ "-" ++ pad2 d.month ++ "-" ++ Nat.repr d.year

def monthName (m : Nat) : String :=
  if m = 1 then "January" else if m = 2 then "February" else if m = 3 then "March"
  else if m = 4 then "April" else if m = 5 then "May" else if m = 6 then "June"
  else if m = 7 then "July" else if m = 8 then "August" else if m = 9 then "September"
  else if m = 10 then "October" else if m = 11 then "November" else "December"

/-- `strftime('%B %Y')`. -/
def strftimeBY (d : PDate) : String := monthName d.month ++ " " ++ Nat.repr d.year

/-- Month arithmetic of `pd.DateOffset(months=k)`: shift the month and clamp
the day to the length of the target month. -/
def addMonths (d : PDate) (k : Nat) : PDate :=
  let t := d.month - 1 + k
  let y := d.year + t / 12
  let m := t % 12 + 1
  ⟨y, m, min d.day (daysInMonth y m)⟩

/-- `start + pd.DateOffset(months=k)` as used in the source: the result is a
`pandas.Timestamp`, which subclasses `datetime.datetime` and therefore cannot
represent a year above 9999; the addition raises past that point (caught by
the source's bare `except`).  On pandas before 2.0 the representable window is
even narrower (the nanosecond `Timestamp` range, 1677-09-21 to 2262-04-11), so
failures are a superset of the ones modelled here; the behaviour relied on by
the theorems below (an exception escaping mid-loop) is the same. -/
def dateOffsetMonths (d : PDate) (k : Nat) : Option PDate :=
  let r := addMonths d k
  if r.year ≤ 9999 then some r else none

/-! ## Filename parser (`extract_contract_number_from_filename`) -/

/-- One attempt of `re.search(r'CC(\d+)_', filename)` at a fixed start
position: literal `CC`, then a maximal digit run, then `_`.  (`\d+` is greedy
and `_` is not a digit, so the maximal run is the only run the regex engine
can accept here: shortening the run leaves a digit where `_` is required.) -/
def ccAttempt : List Char → Option (List Char)
  | c1 :: c2 :: rest =>
    if c1 = 'C' ∧ c2 = 'C' ∧ (rest.dropWhile Char.isDigit).head? = some '_' ∧
        ¬ (rest.takeWhile Char.isDigit).isEmpty then
      some (rest.takeWhile Char.isDigit)
    else none
  | _ => none

def extract_contract_number_from_filename (filename : String) : String :=
  match scanOpt ccAttempt filename.data with
  | some run => run.asString
  | none => ""

/-! ## `extract_first_valid_date` -/

/-- Attempt of `\b(\d{2}\.\d{2}\.\d{4})\b` at a fixed position: `prev` is the
character just before the position (`none` at the start of the text), used for
the left word boundary. -/
def tryDateAt (prev : Option Char) (s : List Char) : Option (List Char) :=
  match s with
  | d1 :: d2 :: '.' :: m1 :: m2 :: '.' :: y1 :: y2 :: y3 :: y4 :: rest =>
    if d1.isDigit && d2.isDigit && m1.isDigit && m2.isDigit
        && y1.isDigit && y2.isDigit && y3.isDigit && y4.isDigit then
      let bl := match prev with
        | none => true
        | some c => !isWordChar c
      let br := match rest with
        | [] => true
        | c :: _ => !isWordChar c
      if bl && br then some [d1, d2, '.', m1, m2, '.', y1, y2, y3, y4] else none
    else none
  | _ => none

/-- `re.findall(r'\b(\d{2}\.\d{2}\.\d{4})\b', text)`.  `findall` resumes
scanning after the end of each (non-overlapping) match; this scanner advances
one character at a time, which yields the same list: no start position strictly
inside a match can succeed, since any such position either follows a digit
(word boundary fails) or forces a digit where the pattern requires `'.'`. -/
def findDates (prev : Option Char) : List Char → List (List Char)
  | [] => []
  | c :: rest =>
    match tryDateAt prev (c :: rest) with
    | some cand => cand :: findDates (some c) rest
    | none => findDates (some c) rest

/-- The per-candidate loop of `extract_first_valid_date`: first strictly
parseable candidate, reformatted; `''` when none parses. -/
def firstValidDate : List (List Char) → String
  | [] => ""
  | c :: rest =>
    match parseDate c with
    | some d => strftimeDMY d
    | none => firstValidDate rest

def extract_first_valid_date (text : String) : String :=
  firstValidDate (findDates none text.data)

/-! ## Label/value patterns (`find`, Address, Location) -/

/-- Closed form of `\s*(.*?)\n` after a matched `label\s*:`, shared by the
`Customer Name` / `Contact Number` pattern (with `re.DOTALL`) and the
`Location` pattern (without): greedy `\s*`, then the lazy group runs to the
first newline after it.  If no newline follows the whitespace run, the engine
backtracks `\s*` into the run; the group can then only match empty right
before the run's last newline.  Without any newline after the colon the
attempt fails.  (`re.DOTALL` is irrelevant: the lazy group stops at the first
newline in either mode.) -/
def afterColonMatch (p : List Char) : Option (List Char) :=
  let r := p.dropWhile isPyWs
  if r.contains '\n' then some (r.takeWhile (fun c => c ≠ '\n'))
  else if (p.takeWhile isPyWs).contains '\n' then some []
  else none

/-- One attempt of `label\s*:\s*(.*?)\n` (label given lower-case). -/
def labelAttempt (label : List Char) (s : List Char) : Option (List Char) :=
  (ciRest label s).bind fun aft =>
    match aft.dropWhile isPyWs with
    | ':' :: p => afterColonMatch p
    | _ => none

/-- The raw group of `re.search(r'label\s*:\s*(.*?)\n', text, I|S)`. -/
def findLabelRaw (label : List Char) (text : List Char) : Option (List Char) :=
  scanOpt (labelAttempt label) text

/-- The source's `find(pat)` helper: captured group stripped, `''` fallback. -/
def findLabel (label : List Char) (text : List Char) : String :=
  match findLabelRaw label text with
  | some g => (pyStrip g).asString
  | none => ""

def addressTerms : List (List Char) :=
  [("contact number" : String).data, ("location" : String).data, ("unit details" : String).data]

/-- The lazy group of `Address\s*:\s*(.*?)(?:Contact Number|Location|Unit
Details)`: characters up to the first position where one of the three labels
matches (case-insensitively); `none` when no label follows.  (The greedy
`\s*` before the group cannot eat a label start, since the labels begin with
letters, so no further backtracking arises.) -/
def takeBeforeTerms (terms : List (List Char)) : List Char → Option (List Char)
  | [] => none
  | c :: rest =>
    if terms.any (fun t => (ciRest t (c :: rest)).isSome) then some []
    else (takeBeforeTerms terms rest).map (c :: ·)

/-- One attempt of the `Address` pattern. -/
def addressAttempt (s : List Char) : Option (List Char) :=
  (ciRest ("address" : String).data s).bind fun aft =>
    match aft.dropWhile isPyWs with
    | ':' :: p => takeBeforeTerms addressTerms (p.dropWhile isPyWs)
    | _ => none

/-! ## Amount patterns -/

/-- The capture `([\d,]+(?:\.\d{1,2})?)` with nothing after it (primary
amount pattern): maximal digit/comma run, then a greedy optional decimal part
of one or two digits. -/
def numCapture (s : List Char) : Option (List Char) :=
  let run := s.takeWhile (fun c => c.isDigit || c = ',')
  if run.isEmpty then none
  else
    match s.drop run.length with
    | '.' :: r2 =>
      let ds := (r2.takeWhile Char.isDigit).take 2
      if ds.isEmpty then some run else some (run ++ '.' :: ds)
    | _ => some run

/-- One attempt of `AMOUNT\s*[:\-]?\s*(?:Rs\.?|₹)?\s*([\d,]+(?:\.\d{1,2})?)`
(with `re.IGNORECASE`).  Each optional piece is taken greedily; skipping an
optional piece the engine would have taken can never help here, because the
character it starts with (`:`, `-`, `R`, `₹`, `.`) is neither whitespace nor
a digit/comma, so the capture fails at it anyway. -/
def amountLabelAttempt (s : List Char) : Option (List Char) :=
  (ciRest ("amount" : String).data s).bind fun r1 =>
    let r2 := r1.dropWhile isPyWs
    let r3 := match r2 with
      | ':' :: t => t
      | '-' :: t => t
      | _ => r2
    let r4 := r3.dropWhile isPyWs
    let r5 := match ciRest ("rs" : String).data r4 with
      | some t =>
        match t with
        | '.' :: u => u
        | _ => t
      | none =>
        match r4 with
        | '₹' :: t => t
        | _ => r4
    numCapture (r5.dropWhile isPyWs)

/-- The candidate ends of the optional `(?:\.\d{1,2})?` part, in the greedy
backtracking order of the engine: two digits, one digit, none.  Each entry is
(decimal part taken, remaining input). -/
def decCandidates (rest : List Char) : List (List Char × List Char) :=
  match rest with
  | '.' :: d1 :: d2 :: r =>
    if d1.isDigit && d2.isDigit then [(['.', d1, d2], r), (['.', d1], d2 :: r), ([], rest)]
    else if d1.isDigit then [(['.', d1], d2 :: r), ([], rest)]
    else [([], rest)]
  | ['.', d1] =>
    if d1.isDigit then [(['.', d1], []), ([], rest)] else [([], rest)]
  | _ => [([], rest)]

/-- Does whitespace followed by the literal slash-hyphen marker match here? -/
def slashAfter (s : List Char) : Bool :=
  match s.dropWhile isPyWs with
  | '/' :: '-' :: _ => true
  | _ => false

/-- One attempt of the fallback amount pattern (optional currency marker, then
the numeric capture, then optional whitespace and the literal slash-hyphen
marker; no flags, so `Rs` is case-sensitive).  Shortening the greedy `[\d,]+` run
cannot help (the next character would be a digit or comma where `/` or
whitespace is required), so only the decimal part backtracks, via
`decCandidates`. -/
def amountSlashAttempt (s : List Char) : Option (List Char) :=
  let r1 := match csRest ("Rs" : String).data s with
    | some t =>
      match t with
      | '.' :: u => u
      | _ => t
    | none =>
      match s with
      | '₹' :: t => t
      | _ => s
  let r2 := r1.dropWhile isPyWs
  let run := r2.takeWhile (fun c => c.isDigit || c = ',')
  if run.isEmpty then none
  else
    (decCandidates (r2.drop run.length)).findSome? fun p =>
      if slashAfter p.2 then some (run ++ p.1) else none

/-- The `Amount` field value: primary labelled pattern first, then the
slash-hyphen fallback, else `''` (the winning group is `.strip()`ped). -/
def amountValue (t : List Char) : String :=
  match scanOpt amountLabelAttempt t with
  | some cap => (pyStrip cap).asString
  | none =>
    match scanOpt amountSlashAttempt t with
    | some cap => (pyStrip cap).asString
    | none => ""

/-! ## AMC period pattern -/

/-- `\d{2}\.\d{2}\.\d{4}` at a fixed position (no word boundaries here). -/
def grabDatePat : List Char → Option (List Char × List Char)
  | d1 :: d2 :: '.' :: m1 :: m2 :: '.' :: y1 :: y2 :: y3 :: y4 :: rest =>
    if d1.isDigit && d2.isDigit && m1.isDigit && m2.isDigit
        && y1.isDigit && y2.isDigit && y3.isDigit && y4.isDigit then
      some ([d1, d2, '.', m1, m2, '.', y1, y2, y3, y4], rest)
    else none
  | _ => none

/-- One attempt of `AMC PERIOD\s*[:\-]?\s*(d)\s*(?:to|-)\s*(d)` with
`re.IGNORECASE`, where `(d)` is the ten-character date shape.  All pieces are
of fixed shape or separated by disjoint first characters, so no backtracking
arises. -/
def amcAttempt (s : List Char) : Option (List Char × List Char) :=
  (ciRest ("amc period" : String).data s).bind fun r1 =>
    let r2 := r1.dropWhile isPyWs
    let r3 := match r2 with
      | ':' :: t => t
      | '-' :: t => t
      | _ => r2
    (grabDatePat (r3.dropWhile isPyWs)).bind fun p1 =>
      let r5 := p1.2.dropWhile isPyWs
      let joined : Option (List Char) := match ciRest ("to" : String).data r5 with
        | some t => some t
        | none =>
          match r5 with
          | '-' :: t => some t
          | _ => none
      joined.bind fun r6 =>
        (grabDatePat (r6.dropWhile isPyWs)).map fun p2 => (p1.1, p2.1)

/-! ## Unit details -/

def unitKeywords : List String := ["brand", "range", "rate", "qty", "amount", "ton"]

/-- Stage-1 guard of the table loop: `len(table) > 1` and some header cell,
lower-cased, equals one of the keywords. -/
def tableQualifies (table : List (List String)) : Bool :=
  match table with
  | hdr :: _ :: _ => unitKeywords.any fun kw => (hdr.map pyLower).contains kw
  | _ => false

/-- `" | ".join(cell for cell in row if cell.strip())`. -/
def rowText (row : List String) : String :=
  String.intercalate " | " (row.filter fun c => pyStripS c ≠ "")

/-- `re.search(r'\bTOTAL\b', s, re.IGNORECASE)` as a Boolean: somewhere in
`s`, `total` case-insensitively with word boundaries on both sides. -/
def totalAt (prev : Option Char) (s : List Char) : Bool :=
  (match prev with
    | none => true
    | some c => !isWordChar c)
  && (match ciRest ("total" : String).data s with
    | some rest =>
      match rest with
      | [] => true
      | c :: _ => !isWordChar c
    | none => false)

def hasStandaloneTotal (prev : Option Char) : List Char → Bool
  | [] => false
  | c :: rest => totalAt prev (c :: rest) || hasStandaloneTotal (some c) rest

/-- The row loop over `table[1:]` of the qualifying table: every row whose
joined text is nonempty and has no standalone `TOTAL` contributes one
newline-terminated line. -/
def processRows (rows : List (List String)) : String :=
  rows.foldl
    (fun acc row =>
      let rt := rowText row
      if rt ≠ "" && !hasStandaloneTotal none rt.data then acc ++ rt ++ "\n" else acc)
    ""

/-- Stage 1: the first table passing the guard, processed; `none` when no
table qualifies (`extracted` stays `False`). -/
def unitFromTables : List (List (List String)) → Option String
  | [] => none
  | t :: ts => if tableQualifies t then some (processRows (t.drop 1)) else unitFromTables ts

def unitTerms : List (List Char) :=
  [("amount" : String).data, ("amc period" : String).data, ("contract no" : String).data,
   ("date" : String).data, ("service" : String).data, ("terms & conditions" : String).data]

/-- Does the lookahead `(?=AMOUNT|AMC PERIOD|CONTRACT NO|DATE|SERVICE|TERMS &
CONDITIONS|$)` hold at this suffix?  (`$` without `re.MULTILINE` matches at
the end of the text or just before a final newline.) -/
def unitTermHere (u : List Char) : Bool :=
  u.isEmpty || u = ['\n'] || unitTerms.any fun t => (ciRest t u).isSome

/-- The lazy `(.+?)` before the lookahead, after its first (mandatory)
character has been consumed. -/
def takeUntilTerm : List Char → List Char
  | [] => []
  | c :: rest => if unitTermHere (c :: rest) then [] else c :: takeUntilTerm rest

/-- One attempt of `UNIT DETAILS\s*:?(.+?)(?=...|$)` with `re.IGNORECASE` and
`re.DOTALL`.  The lookahead always holds at the end of the text, so after the
greedy `\s*:?` the attempt succeeds whenever at least one character remains.
When nothing remains the engine backtracks: first dropping an optional final
`:` into the group, else shrinking `\s*` by one so its last character becomes
the group. -/
def unitAttempt (s : List Char) : Option (List Char) :=
  (ciRest ("unit details" : String).data s).bind fun rest =>
    let run := rest.takeWhile isPyWs
    match rest.drop run.length with
    | ':' :: c :: tail => some (c :: takeUntilTerm tail)
    | [':'] => some [':']
    | c :: tail => some (c :: takeUntilTerm tail)
    | [] =>
      match run.getLast? with
      | some w => some [w]
      | none => none

/-- Stage 2 (free text): the matched span, split into lines, stripped, with
empty lines and `Terms & Conditions` / `routine service` lines dropped, each
kept line newline-terminated. -/
def unitFromText (t : List Char) : String :=
  match scanOpt unitAttempt t with
  | none => ""
  | some g =>
    (pySplitlines g).foldl
      (fun acc line =>
        let cl := pyStrip line
        if cl.isEmpty
            || containsCI ("terms & conditions" : String).data cl
            || containsCI ("routine service" : String).data cl then acc
        else acc ++ cl.asString ++ "\n")
      ""

def unitDetailsValue (t : List Char) (table_data : List (List (List String))) : String :=
  match unitFromTables table_data with
  | some s => s
  | none => unitFromText t

/-! ## `extract_details` -/

/-- The sixteen keys of the `fields` dict, in declaration order. -/
def fieldNames : List String :=
  ["Contract Type", "Contract No", "Customer Name", "Contact Number", "Address",
   "Location", "Unit Details", "Amount", "Contract Date", "Amc Start Date",
   "Amc End Date", "Service Frequency", "1st Service Month", "2nd Service Month",
   "3rd Service Month", "4th Service Month"]

/-- The initial `fields` dict literal. -/
def initFields (contract_no : String) : Record :=
  [("Contract Type", .str ""), ("Contract No", .str contract_no),
   ("Customer Name", .str ""), ("Contact Number", .str ""), ("Address", .str ""),
   ("Location", .str ""), ("Unit Details", .str ""), ("Amount", .str ""),
   ("Contract Date", .str ""), ("Amc Start Date", .str ""), ("Amc End Date", .str ""),
   ("Service Frequency", .int 4), ("1st Service Month", .str ""),
   ("2nd Service Month", .str ""), ("3rd Service Month", .str ""),
   ("4th Service Month", .str "")]

/-- The contract-type `if`/`elif` chain. -/
def contractTypeStep (t : List Char) (r : Record) : Record :=
  if containsCI ("annual maintenance contract" : String).data t then
    setField r "Contract Type" (.str "ANNUAL MAINTENANCE CONTRACT")
  else if containsCI ("labour maintenance contract" : String).data t then
    setField r "Contract Type" (.str "LABOUR MAINTENANCE CONTRACT")
  else r

/-- The `Contact Number` value: `find(...)` then `split("UNIT DETAILS")[0].strip()`. -/
def contactNumberValue (t : List Char) : String :=
  (pyStrip (beforeSub ("UNIT DETAILS" : String).data (findLabel ("contact number" : String).data t).data)).asString

def addressStep (t : List Char) (r : Record) : Record :=
  match scanOpt addressAttempt t with
  | some g => setField r "Address" (.str (pyStrip (collapseWs g)).asString)
  | none => r

/-- `Location` is kept only when the raw capture does not itself contain
`CONTACT NUMBER` (compared on the upper-cased capture, i.e. case-insensitively). -/
def locationStep (t : List Char) (r : Record) : Record :=
  match findLabelRaw ("location" : String).data t with
  | some g =>
    if containsCI ("contact number" : String).data g then r
    else setField r "Location" (.str (pyStrip g).asString)
  | none => r

/-- The f-string ordinal labels of the service-month loop. -/
def svcLabel (i : Nat) : String :=
  if i = 0 then "1st Service Month"
  else if i = 1 then "2nd Service Month"
  else if i = 2 then "3rd Service Month"
  else Nat.repr (i + 1) ++ "th Service Month"

/-- The `for i in range(4)` loop: each step computes `start + DateOffset` and
assigns; an exception (modelled by `none`) escapes the loop at once, keeping
every assignment already made. -/
def serviceLoop (start : PDate) : Record → List Nat → Record
  | r, [] => r
  | r, i :: is =>
    match dateOffsetMonths start (2 + i * 3) with
    | some d => serviceLoop start (setField r (svcLabel i) (.str (strftimeBY d))) is
    | none => r

/-- The AMC-period block: search once, then `try` strict parses of both
captures; on success assign start/end and run the service-month loop.  A parse
failure before any assignment leaves the record unchanged. -/
def amcStep (t : List Char) (r : Record) : Record :=
  match scanOpt amcAttempt t with
  | some (c1, c2) =>
    match parseDate c1 with
    | some s =>
      match parseDate c2 with
      | some e =>
        serviceLoop s
          (setField (setField r "Amc Start Date" (.str (strftimeDMY s)))
            "Amc End Date" (.str (strftimeDMY e)))
          [0, 1, 2, 3]
      | none => r
    | none => r
  | none => r

/-- `extract_details(text, contract_no, table_data)`. -/
def extract_details (text contract_no : String) (table_data : List (List (List String))) : Record :=
  let t := text.data
  let r1 := contractTypeStep t (initFields contract_no)
  let r2 := setField r1 "Customer Name" (.str (findLabel ("customer name" : String).data t))
  let r3 := setField r2 "Contact Number" (.str (contactNumberValue t))
  let r4 := addressStep t r3
  let r5 := locationStep t r4
  let r6 := setField r5 "Contract Date" (.str (extract_first_valid_date text))
  let r7 := setField r6 "Amount" (.str (amountValue t))
  let r8 := amcStep t r7
  setField r8 "Unit Details" (.str (pyStripS (unitDetailsValue t table_data)))

/-! ## The upload loop -/

/-- A document as handed to the loop: either loaded text and tables, or a
loader failure (`extract_text_from_docx` catches every exception and returns
the pair of an empty text and no tables). -/
inductive DocLoad : Type
  | ok (text : String) (tables : List (List (List String)))
  | err
deriving Repr

def loadResult : DocLoad → String × List (List (List String))
  | .ok t tb => (t, tb)
  | .err => ("", [])

/-- The `for file in uploaded_files` loop: each document whose loaded text is
truthy after `strip()` appends one record, in order. -/
def processBatch : List (String × DocLoad) → List Record
  | [] => []
  | (name, dl) :: rest =>
    if pyStripS (loadResult dl).1 ≠ "" then
      extract_details (loadResult dl).1 (extract_contract_number_from_filename name)
          (loadResult dl).2 :: processBatch rest
    else processBatch rest

/-! ## Shape invariant of the record (claim C6 machinery) -/

/-- The record has exactly the sixteen declared keys in order, `Service
Frequency` holds the integer 4, and every other field holds a string. -/
def FieldsInv (r : Record) : Prop :=
  r.map Prod.fst = fieldNames ∧
  lookupField r "Service Frequency" = some (.int 4) ∧
  ∀ p ∈ r, p.1 ≠ "Service Frequency" → ∃ s, p.2 = FieldVal.str s

theorem fieldsInv_init (cn : String) : FieldsInv (initFields cn) := by
  refine ⟨rfl, rfl, ?_⟩
  intro p hp hne
  simp only [initFields, List.mem_cons, List.not_mem_nil, or_false] at hp
  rcases hp with rfl | rfl | rfl | rfl | rfl | rfl | rfl | rfl | rfl | rfl | rfl | rfl | rfl | rfl | rfl | rfl <;>
    first
    | exact ⟨_, rfl⟩
    | exact absurd rfl hne

theorem fieldsInv_set (r : Record) (k : String) (s : String) (hr : FieldsInv r)
    (hk : k ∈ fieldNames) (hne : k ≠ "Service Frequency") :
    FieldsInv (setField r k (.str s)) := by
  obtain ⟨h1, h2, h3⟩ := hr
  refine ⟨?_, ?_, ?_⟩
  · rw [map_fst_setField_of_mem r k _ (by rw [h1]; exact hk)]; exact h1
  · rw [lookupField_setField_ne r _ _ _ hne]; exact h2
  · intro p hp hpne
    rcases mem_setField r k _ p hp with h | h
    · exact h3 p h hpne
    · exact ⟨s, by rw [h]⟩

theorem fieldsInv_contractTypeStep (t : List Char) (r : Record) (hr : FieldsInv r) :
    FieldsInv (contractTypeStep t r) := by
  unfold contractTypeStep
  split
  · exact fieldsInv_set r _ _ hr (by decide) (by decide)
  · split
    · exact fieldsInv_set r _ _ hr (by decide) (by decide)
    · exact hr

theorem fieldsInv_addressStep (t : List Char) (r : Record) (hr : FieldsInv r) :
    FieldsInv (addressStep t r) := by
  unfold addressStep
  split
  · exact fieldsInv_set r _ _ hr (by decide) (by decide)
  · exact hr

theorem fieldsInv_locationStep (t : List Char) (r : Record) (hr : FieldsInv r) :
    FieldsInv (locationStep t r) := by
  unfold locationStep
  split
  · split
    · exact hr
    · exact fieldsInv_set r _ _ hr (by decide) (by decide)
  · exact hr

theorem fieldsInv_serviceLoop (start : PDate) (r : Record) (is : List Nat)
    (h : ∀ i ∈ is, svcLabel i ∈ fieldNames ∧ svcLabel i ≠ "Service Frequency")
    (hr : FieldsInv r) : FieldsInv (serviceLoop start r is) := by
  induction is generalizing r with
  | nil => exact hr
  | cons i is ih =>
    unfold serviceLoop
    split
    · apply ih
      · intro j hj
        exact h j (by simp [hj])
      · exact fieldsInv_set r _ _ hr (h i (by simp)).1 (h i (by simp)).2
    · exact hr

theorem fieldsInv_amcStep (t : List Char) (r : Record) (hr : FieldsInv r) :
    FieldsInv (amcStep t r) := by
  unfold amcStep
  split
  · split
    · split
      · refine fieldsInv_serviceLoop _ _ _ ?_
          (fieldsInv_set _ _ _ (fieldsInv_set r _ _ hr (by decide) (by decide)) (by decide) (by decide))
        intro i hi
        fin_cases hi <;> exact ⟨by decide, by decide⟩
      · exact hr
    · exact hr
  · exact hr

/-- Claim C6: for every input, the record returned by `extract_details` has
exactly the sixteen declared fields, in order, each present with a value:
`Service Frequency` is the integer 4 and every other field is a string. -/
theorem record_fixed_fields_and_defaults (text cn : String) (td : List (List (List String))) :
    (extract_details text cn td).map Prod.fst = fieldNames ∧
    lookupField (extract_details text cn td) "Service Frequency" = some (.int 4) ∧
    ∀ p ∈ extract_details text cn td, p.1 ≠ "Service Frequency" → ∃ s, p.2 = FieldVal.str s := by
  have h : FieldsInv (extract_details text cn td) := by
    unfold extract_details
    exact fieldsInv_set _ _ _
      (fieldsInv_amcStep _ _
        (fieldsInv_set _ _ _
          (fieldsInv_set _ _ _
            (fieldsInv_locationStep _ _
              (fieldsInv_addressStep _ _
                (fieldsInv_set _ _ _
                  (fieldsInv_set _ _ _
                    (fieldsInv_contractTypeStep _ _ (fieldsInv_init cn))
                    (by decide) (by decide))
                  (by decide) (by decide))))
            (by decide) (by decide))
          (by decide) (by decide)))
      (by decide) (by decide)
  exact h

/-- Witness for C6 at a concrete input: the key list is the declared one and a
concrete non-`Service Frequency` entry is a string. -/
theorem record_fixed_fields_witness :
    (extract_details "" "" []).map Prod.fst = fieldNames ∧
    ∃ s, (("Customer Name", FieldVal.str "") : String × FieldVal).2 = FieldVal.str s :=
  ⟨(record_fixed_fields_and_defaults "" "" []).1,
   (record_fixed_fields_and_defaults "" "" []).2.2 _ (by decide) (by decide)⟩

/-! ## Which step writes which field -/

theorem lookup_serviceLoop_ne (start : PDate) (r : Record) (is : List Nat) (k : String)
    (h : ∀ i ∈ is, svcLabel i ≠ k) :
    lookupField (serviceLoop start r is) k = lookupField r k := by
  induction is generalizing r with
  | nil => rfl
  | cons i is ih =>
    unfold serviceLoop
    split
    · rw [ih _ (fun j hj => h j (by simp [hj])),
        lookupField_setField_ne _ _ _ _ (h i (by simp))]
    · rfl

theorem lookup_amcStep_ne (t : List Char) (r : Record) (k : String)
    (h1 : k ≠ "Amc Start Date") (h2 : k ≠ "Amc End Date")
    (h3 : k ≠ "1st Service Month") (h4 : k ≠ "2nd Service Month")
    (h5 : k ≠ "3rd Service Month") (h6 : k ≠ "4th Service Month") :
    lookupField (amcStep t r) k = lookupField r k := by
  unfold amcStep
  split
  · split
    · split
      · rw [lookup_serviceLoop_ne]
        · rw [lookupField_setField_ne _ _ _ _ (Ne.symm h2),
            lookupField_setField_ne _ _ _ _ (Ne.symm h1)]
        · intro i hi
          fin_cases hi
          · simpa [svcLabel] using Ne.symm h3
          · simpa [svcLabel] using Ne.symm h4
          · simpa [svcLabel] using Ne.symm h5
          · simpa [svcLabel] using Ne.symm h6
      · rfl
    · rfl
  · rfl

theorem lookup_amount_value (text cn : String) (td : List (List (List String))) :
    lookupField (extract_details text cn td) "Amount" = some (.str (amountValue text.data)) := by
  simp only [extract_details]
  rw [lookupField_setField_ne _ _ _ _ (by decide),
    lookup_amcStep_ne _ _ _ (by decide) (by decide) (by decide) (by decide) (by decide) (by decide),
    lookupField_setField_self]

theorem lookup_contract_date_value (text cn : String) (td : List (List (List String))) :
    lookupField (extract_details text cn td) "Contract Date" =
      some (.str (extract_first_valid_date text)) := by
  simp only [extract_details]
  rw [lookupField_setField_ne _ _ _ _ (by decide),
    lookup_amcStep_ne _ _ _ (by decide) (by decide) (by decide) (by decide) (by decide) (by decide),
    lookupField_setField_ne _ _ _ _ (by decide), lookupField_setField_self]

theorem lookup_unit_details_value (text cn : String) (td : List (List (List String))) :
    lookupField (extract_details text cn td) "Unit Details" =
      some (.str (pyStripS (unitDetailsValue text.data td))) := by
  simp only [extract_details]
  rw [lookupField_setField_self]

/-! ## Claim C4: ordered two-pattern amount fallback -/

/-- Claim C4: `Amount` comes from the labelled primary pattern when it
matches anywhere in the text; only when it does not is the slash-hyphen
fallback pattern used; when neither matches, `Amount` is the empty string. -/
theorem amount_two_stage_fallback (text cn : String) (td : List (List (List String))) :
    (∀ cap, scanOpt amountLabelAttempt text.data = some cap →
      lookupField (extract_details text cn td) "Amount" = some (.str (pyStrip cap).asString)) ∧
    (scanOpt amountLabelAttempt text.data = none →
      ∀ cap, scanOpt amountSlashAttempt text.data = some cap →
        lookupField (extract_details text cn td) "Amount" = some (.str (pyStrip cap).asString)) ∧
    (scanOpt amountLabelAttempt text.data = none →
      scanOpt amountSlashAttempt text.data = none →
      lookupField (extract_details text cn td) "Amount" = some (.str "")) := by
  refine ⟨?_, ?_, ?_⟩
  · intro cap h
    rw [lookup_amount_value]
    simp [amountValue, h]
  · intro h1 cap h2
    rw [lookup_amount_value]
    simp [amountValue, h1, h2]
  · intro h1 h2
    rw [lookup_amount_value]
    simp [amountValue, h1, h2]

/-- Witness for C4 at the two examples of the specification. -/
theorem amount_two_stage_witness :
    lookupField (extract_details "AMOUNT: Rs. 12,500.00" "" []) "Amount" = some (.str "12,500.00") ∧
    lookupField (extract_details "12500/-" "" []) "Amount" = some (.str "12500") := by
  constructor
  · have h := (amount_two_stage_fallback "AMOUNT: Rs. 12,500.00" "" []).1
      ("12,500.00" : String).data (by decide)
    have e : (pyStrip ("12,500.00" : String).data).asString = "12,500.00" := by decide
    rw [e] at h
    exact h
  · have h := (amount_two_stage_fallback "12500/-" "" []).2.1 (by decide)
      ("12500" : String).data (by decide)
    have e : (pyStrip ("12500" : String).data).asString = "12500" := by decide
    rw [e] at h
    exact h

/-! ## Claim C8: first strictly valid date becomes the contract date -/

theorem firstValidDate_append_bad (pre l : List (List Char))
    (h : ∀ c ∈ pre, parseDate c = none) :
    firstValidDate (pre ++ l) = firstValidDate l := by
  induction pre with
  | nil => rfl
  | cons c rest ih =>
    have hc : parseDate c = none := h c (by simp)
    simp only [List.cons_append, firstValidDate, hc]
    exact ih fun c2 h2 => h c2 (by simp [h2])

theorem firstValidDate_all_bad (l : List (List Char))
    (h : ∀ c ∈ l, parseDate c = none) : firstValidDate l = "" := by
  induction l with
  | nil => rfl
  | cons c rest ih =>
    have hc : parseDate c = none := h c (by simp)
    simp only [firstValidDate, hc]
    exact ih fun c2 h2 => h c2 (by simp [h2])

/-- Claim C8: `Contract Date` is the first `dd.mm.yyyy` candidate (in match
order) that parses as a strict calendar date, reformatted; earlier candidates
that fail strict parsing are skipped, and if no candidate parses the field is
empty. -/
theorem contract_date_first_valid_candidate :
    (∀ (text cn : String) (td : List (List (List String)))
      (pre : List (List Char)) (c : List Char) (rest : List (List Char)) (d : PDate),
      findDates none text.data = pre ++ c :: rest →
      (∀ c2 ∈ pre, parseDate c2 = none) →
      parseDate c = some d →
      lookupField (extract_details text cn td) "Contract Date" = some (.str (strftimeDMY d))) ∧
    (∀ (text cn : String) (td : List (List (List String))),
      (∀ c2 ∈ findDates none text.data, parseDate c2 = none) →
      lookupField (extract_details text cn td) "Contract Date" = some (.str "")) := by
  constructor
  · intro text cn td pre c rest d hfind hpre hc
    rw [lookup_contract_date_value]
    unfold extract_first_valid_date
    rw [hfind, firstValidDate_append_bad pre _ hpre]
    simp [firstValidDate, hc]
  · intro text cn td h
    rw [lookup_contract_date_value]
    unfold extract_first_valid_date
    rw [firstValidDate_all_bad _ h]

/-- Witness for C8: the invalid candidate `31.02.2024` is skipped and the next
one is used. -/
theorem contract_date_witness :
    lookupField (extract_details "31.02.2024 and 01.03.2024" "" []) "Contract Date" =
      some (.str "01-03-2024") := by
  have h := contract_date_first_valid_candidate.1 "31.02.2024 and 01.03.2024" "" []
    [("31.02.2024" : String).data] ("01.03.2024" : String).data [] ⟨2024, 3, 1⟩
    (by decide) (by decide) (by decide)
  have e : strftimeDMY ⟨2024, 3, 1⟩ = "01-03-2024" := by decide
  rw [e] at h
  exact h

/-! ## Claims C10, C3, C9: unit-details extraction -/

theorem tableQualifies_length (t : List (List String)) (h : tableQualifies t = true) :
    2 ≤ t.length := by
  match t with
  | [] => simp [tableQualifies] at h
  | [hdr] => simp [tableQualifies] at h
  | hdr :: r :: rest => simp

theorem unitFromTables_none_of_short (td : List (List (List String)))
    (h : ∀ t ∈ td, t.length ≤ 1) : unitFromTables td = none := by
  induction td with
  | nil => rfl
  | cons t rest ih =>
    have hq : tableQualifies t = false := by
      cases hq2 : tableQualifies t
      · rfl
      · have := tableQualifies_length t hq2
        have := h t (by simp)
        omega
    simp only [unitFromTables, hq]
    simp only [Bool.false_eq_true, if_false]
    exact ih fun t2 h2 => h t2 (by simp [h2])

/-- Claim C10: when every table grid has at most one row (header only), the
table stage never fires — even if a header contains a qualifying keyword —
and `Unit Details` comes from the free-text stage. -/
theorem single_row_table_falls_back (text cn : String) (td : List (List (List String)))
    (h : ∀ t ∈ td, t.length ≤ 1) :
    lookupField (extract_details text cn td) "Unit Details" =
      some (.str (pyStripS (unitFromText text.data))) := by
  rw [lookup_unit_details_value]
  rw [show unitDetailsValue text.data td = unitFromText text.data by
    simp [unitDetailsValue, unitFromTables_none_of_short td h]]

/-- Witness for C10: a header-only table whose header holds the keyword
`brand` is skipped and the free-text span is used. -/
theorem single_row_table_witness :
    lookupField (extract_details "UNIT DETAILS: foo" "" [[["brand"]]]) "Unit Details" =
      some (.str "foo") := by
  have h := single_row_table_falls_back "UNIT DETAILS: foo" "" [[["brand"]]] (by decide)
  have e : pyStripS (unitFromText ("UNIT DETAILS: foo" : String).data) = "foo" := by decide
  rw [e] at h
  exact h

theorem unitFromTables_first_qualifying (pre : List (List (List String)))
    (t : List (List String)) (post : List (List (List String)))
    (h1 : ∀ t2 ∈ pre, tableQualifies t2 = false) (h2 : tableQualifies t = true) :
    unitFromTables (pre ++ t :: post) = some (processRows (t.drop 1)) := by
  induction pre with
  | nil => simp [unitFromTables, h2]
  | cons q rest ih =>
    have hq : tableQualifies q = false := h1 q (by simp)
    simp only [List.cons_append, unitFromTables, hq]
    simp only [Bool.false_eq_true, if_false]
    exact ih fun t2 hm => h1 t2 (by simp [hm])

theorem lookup_unit_first_table (text cn : String)
    (pre : List (List (List String))) (t : List (List String)) (post : List (List (List String)))
    (h1 : ∀ t2 ∈ pre, tableQualifies t2 = false) (h2 : tableQualifies t = true) :
    lookupField (extract_details text cn (pre ++ t :: post)) "Unit Details" =
      some (.str (pyStripS (processRows (t.drop 1)))) := by
  rw [lookup_unit_details_value]
  rw [show unitDetailsValue text.data (pre ++ t :: post) = processRows (t.drop 1) by
    simp [unitDetailsValue, unitFromTables_first_qualifying pre t post h1 h2]]

/-- Claim C3 (amended with the at-least-two-rows condition of C10): when some
table passes the stage-1 guard, `Unit Details` is built from the data rows of
the first such table, and the document text — in particular any free-text
`UNIT DETAILS` span — plays no part: the right-hand side does not mention the
text. -/
theorem unit_details_first_qualifying_table (text cn : String)
    (pre : List (List (List String))) (t : List (List String)) (post : List (List (List String)))
    (h1 : ∀ t2 ∈ pre, tableQualifies t2 = false) (h2 : tableQualifies t = true) :
    lookupField (extract_details text cn (pre ++ t :: post)) "Unit Details" =
      some (.str (pyStripS (processRows (t.drop 1)))) :=
  lookup_unit_first_table text cn pre t post h1 h2

/-- Witness for C3: the spec's example — a qualifying `Brand/Qty/Rate` table
wins over a free-text `UNIT DETAILS: foo` elsewhere in the text. -/
theorem unit_details_table_stage_witness :
    lookupField
      (extract_details "UNIT DETAILS: foo" ""
        [[["Brand", "Qty", "Rate"], ["X", "1", "2"]]]) "Unit Details" =
      some (.str "X | 1 | 2") := by
  have h := unit_details_first_qualifying_table "UNIT DETAILS: foo" "" []
    [["Brand", "Qty", "Rate"], ["X", "1", "2"]] [] (by decide) (by decide)
  have e : pyStripS (processRows ([["Brand", "Qty", "Rate"], ["X", "1", "2"]].drop 1)) =
      "X | 1 | 2" := by decide
  rw [List.nil_append] at h
  rw [e] at h
  exact h

/-- The qualifying condition exactly as claim C3 words it: the header row,
case-folded, contains one of the keywords — with no requirement on the number
of rows.  Modelled from the claim, for comparison with `tableQualifies` of
the code (which also requires `len(table) > 1`). -/
def specTableQualifiesHdr (table : List (List String)) : Bool :=
  match table with
  | hdr :: _ => unitKeywords.any fun kw => (hdr.map pyLower).contains kw
  | [] => false

/-- Counterexample to C3 as stated: a header-only table qualifies under the
claim's wording, so the claim demands that `Unit Details` be built only from
that table's (zero) data rows and the free-text span be ignored; the code
instead skips one-row tables and uses the free-text span `foo`. -/
theorem unit_details_header_only_table_cex :
    specTableQualifiesHdr [["brand"]] = true ∧
    lookupField (extract_details "UNIT DETAILS: foo" "" [[["brand"]]]) "Unit Details" =
      some (.str "foo") ∧
    FieldVal.str "foo" ≠ FieldVal.str "" := by
  refine ⟨by decide, ?_, by decide⟩
  decide

/-- `processRows` as a filter-and-join: rows whose joined text is empty or
contains a standalone `TOTAL` are dropped, every other data row contributes
its non-blank cells pipe-joined, one line per row. -/
theorem foldl_str_append (l : List String) (a : String) :
    l.foldl (fun r s => r ++ s) a = a ++ l.foldl (fun r s => r ++ s) "" := by
  induction l generalizing a with
  | nil => simp
  | cons s l ih =>
    simp only [List.foldl_cons]
    rw [ih (a ++ s), ih ("" ++ s)]
    simp [String.append_assoc]

theorem processRows_eq_join (rows : List (List String)) :
    processRows rows =
      String.join ((rows.filter fun row =>
        rowText row ≠ "" && !hasStandaloneTotal none (rowText row).data).map
        fun row => rowText row ++ "\n") := by
  suffices h : ∀ acc, rows.foldl
      (fun acc row =>
        let rt := rowText row
        if rt ≠ "" && !hasStandaloneTotal none rt.data then acc ++ rt ++ "\n" else acc)
      acc =
      acc ++ String.join ((rows.filter fun row =>
        rowText row ≠ "" && !hasStandaloneTotal none (rowText row).data).map
        fun row => rowText row ++ "\n") by
    have h2 := h ""
    simpa [processRows] using h2
  induction rows with
  | nil => intro acc; simp [String.join]
  | cons row rest ih =>
    intro acc
    by_cases hc : (rowText row ≠ "" && !hasStandaloneTotal none (rowText row).data) = true
    · simp only [List.foldl_cons, List.filter_cons, hc, if_pos, List.map_cons]
      rw [ih]
      simp only [String.join, List.foldl_cons]
      rw [foldl_str_append _ ("" ++ (rowText row ++ "\n"))]
      simp [String.append_assoc]
    · have hc2 := eq_false_of_ne_true hc
      simp only [List.foldl_cons, List.filter_cons, hc2, if_neg, Bool.false_eq_true]
      rw [ih]
      simp

/-- Claim C9 (amended): in the table stage, a data row is excluded when its
joined text contains a standalone `TOTAL` (case-insensitive) or when the
joined text is empty; every other data row contributes one line holding its
non-blank cells pipe-joined — cells that are empty after stripping are
dropped before joining, so the line is not always the pipe-join of all cell
values. -/
theorem unit_details_row_filtering (text cn : String) (hdr : List String)
    (rows : List (List String)) (h : tableQualifies (hdr :: rows) = true) :
    lookupField (extract_details text cn [hdr :: rows]) "Unit Details" =
      some (.str (pyStripS (String.join ((rows.filter fun row =>
        rowText row ≠ "" && !hasStandaloneTotal none (rowText row).data).map
        fun row => rowText row ++ "\n")))) := by
  have h2 := lookup_unit_first_table text cn [] (hdr :: rows) [] (by simp) h
  rw [List.nil_append] at h2
  rw [h2]
  have h3 : (hdr :: rows).drop 1 = rows := rfl
  rw [h3, processRows_eq_join]

/-- Witness for C9: the `TOTAL 5000` row is excluded, the other row is kept
as its non-blank cells pipe-joined. -/
theorem unit_details_row_filtering_witness :
    lookupField (extract_details "" "" [[["brand"], ["A", "", "B"], ["TOTAL", "5000"]]])
      "Unit Details" = some (.str "A | B") := by
  have h := unit_details_row_filtering "" "" ["brand"] [["A", "", "B"], ["TOTAL", "5000"]]
    (by decide)
  have e : pyStripS (String.join (([["A", "", "B"], ["TOTAL", "5000"]].filter fun row =>
      rowText row ≠ "" && !hasStandaloneTotal none (rowText row).data).map
      fun row => rowText row ++ "\n")) = "A | B" := by decide
  rw [e] at h
  exact h

/-- Counterexample to C9 as stated: the claim says an included row appears
verbatim with its cell values pipe-joined, which for the row
`["A", "", "B"]` would be `A |  | B`; the code first drops blank cells and
produces `A | B`. -/
theorem unit_details_blank_cell_cex :
    lookupField (extract_details "" "" [[["brand"], ["A", "", "B"]]]) "Unit Details" =
      some (.str "A | B") ∧
    String.intercalate " | " ["A", "", "B"] = "A |  | B" ∧
    ("A | B" : String) ≠ "A |  | B" := by
  refine ⟨by decide, by decide, by decide⟩

/-! ## Claims C1 and C2: AMC period, service months -/

/-- Claim C1 (amended): when the *first* match of the AMC-period pattern in
the text has two strictly parseable dates, and the four service-month offsets
stay inside the supported timestamp range, the start and end dates are
reformatted into the two date fields and the four service-month fields hold
the start date plus 2, 5, 8 and 11 months, each formatted as month name and
year. -/
theorem amc_first_match_dates_and_service_months (text cn : String)
    (td : List (List (List String))) (c1 c2 : List Char) (s e d2 d5 d8 d11 : PDate)
    (hm : scanOpt amcAttempt text.data = some (c1, c2))
    (hs : parseDate c1 = some s) (he : parseDate c2 = some e)
    (h2m : dateOffsetMonths s 2 = some d2) (h5m : dateOffsetMonths s 5 = some d5)
    (h8m : dateOffsetMonths s 8 = some d8) (h11m : dateOffsetMonths s 11 = some d11) :
    lookupField (extract_details text cn td) "Amc Start Date" = some (.str (strftimeDMY s)) ∧
    lookupField (extract_details text cn td) "Amc End Date" = some (.str (strftimeDMY e)) ∧
    lookupField (extract_details text cn td) "1st Service Month" = some (.str (strftimeBY d2)) ∧
    lookupField (extract_details text cn td) "2nd Service Month" = some (.str (strftimeBY d5)) ∧
    lookupField (extract_details text cn td) "3rd Service Month" = some (.str (strftimeBY d8)) ∧
    lookupField (extract_details text cn td) "4th Service Month" = some (.str (strftimeBY d11)) := by
  have hstep : ∀ r : Record, amcStep text.data r =
      setField (setField (setField (setField (setField (setField r
        "Amc Start Date" (.str (strftimeDMY s)))
        "Amc End Date" (.str (strftimeDMY e)))
        "1st Service Month" (.str (strftimeBY d2)))
        "2nd Service Month" (.str (strftimeBY d5)))
        "3rd Service Month" (.str (strftimeBY d8)))
        "4th Service Month" (.str (strftimeBY d11)) := by
    intro r
    simp [amcStep, hm, hs, he, serviceLoop, svcLabel, h2m, h5m, h8m, h11m]
    rw [(by decide : (Nat.repr 4 ++ "th Service Month" : String) = "4th Service Month")]
  refine ⟨?_, ?_, ?_, ?_, ?_, ?_⟩ <;>
    simp only [extract_details] <;>
    rw [lookupField_setField_ne _ _ _ _ (by decide), hstep]
  · rw [lookupField_setField_ne _ _ _ _ (by decide),
      lookupField_setField_ne _ _ _ _ (by decide),
      lookupField_setField_ne _ _ _ _ (by decide),
      lookupField_setField_ne _ _ _ _ (by decide),
      lookupField_setField_ne _ _ _ _ (by decide), lookupField_setField_self]
  · rw [lookupField_setField_ne _ _ _ _ (by decide),
      lookupField_setField_ne _ _ _ _ (by decide),
      lookupField_setField_ne _ _ _ _ (by decide),
      lookupField_setField_ne _ _ _ _ (by decide), lookupField_setField_self]
  · rw [lookupField_setField_ne _ _ _ _ (by decide),
      lookupField_setField_ne _ _ _ _ (by decide),
      lookupField_setField_ne _ _ _ _ (by decide), lookupField_setField_self]
  · rw [lookupField_setField_ne _ _ _ _ (by decide),
      lookupField_setField_ne _ _ _ _ (by decide), lookupField_setField_self]
  · rw [lookupField_setField_ne _ _ _ _ (by decide), lookupField_setField_self]
  · rw [lookupField_setField_self]

/-- Witness for C1 at the spec's round-trip example. -/
theorem amc_first_match_witness :
    lookupField (extract_details "AMC PERIOD: 01.03.2024 to 28.02.2025" "" [])
      "Amc Start Date" = some (.str "01-03-2024") ∧
    lookupField (extract_details "AMC PERIOD: 01.03.2024 to 28.02.2025" "" [])
      "Amc End Date" = some (.str "28-02-2025") ∧
    lookupField (extract_details "AMC PERIOD: 01.03.2024 to 28.02.2025" "" [])
      "1st Service Month" = some (.str "May 2024") ∧
    lookupField (extract_details "AMC PERIOD: 01.03.2024 to 28.02.2025" "" [])
      "2nd Service Month" = some (.str "August 2024") ∧
    lookupField (extract_details "AMC PERIOD: 01.03.2024 to 28.02.2025" "" [])
      "3rd Service Month" = some (.str "November 2024") ∧
    lookupField (extract_details "AMC PERIOD: 01.03.2024 to 28.02.2025" "" [])
      "4th Service Month" = some (.str "February 2025") := by
  have h := amc_first_match_dates_and_service_months
    "AMC PERIOD: 01.03.2024 to 28.02.2025" "" []
    ("01.03.2024" : String).data ("28.02.2025" : String).data
    ⟨2024, 3, 1⟩ ⟨2025, 2, 28⟩ ⟨2024, 5, 1⟩ ⟨2024, 8, 1⟩ ⟨2024, 11, 1⟩ ⟨2025, 2, 1⟩
    (by decide) (by decide) (by decide) (by decide) (by decide) (by decide) (by decide)
  obtain ⟨ha, hb, hc, hd, he2, hf⟩ := h
  refine ⟨?_, ?_, ?_, ?_, ?_, ?_⟩
  · rw [(by decide : strftimeDMY (⟨2024, 3, 1⟩ : PDate) = "01-03-2024")] at ha; exact ha
  · rw [(by decide : strftimeDMY (⟨2025, 2, 28⟩ : PDate) = "28-02-2025")] at hb; exact hb
  · rw [(by decide : strftimeBY (⟨2024, 5, 1⟩ : PDate) = "May 2024")] at hc; exact hc
  · rw [(by decide : strftimeBY (⟨2024, 8, 1⟩ : PDate) = "August 2024")] at hd; exact hd
  · rw [(by decide : strftimeBY (⟨2024, 11, 1⟩ : PDate) = "November 2024")] at he2; exact he2
  · rw [(by decide : strftimeBY (⟨2025, 2, 1⟩ : PDate) = "February 2025")] at hf; exact hf

/-- The claim-side condition of C1: an AMC-period clause both of whose
captured dates strictly parse.  Modelled from the claim's wording ("any text
containing an AMC PERIOD clause with two parseable dates"), for comparison
with the code, which only ever examines the first pattern match. -/
def amcParseableAttempt (s : List Char) : Option (PDate × PDate) :=
  (amcAttempt s).bind fun p =>
    (parseDate p.1).bind fun d1 => (parseDate p.2).map fun d2 => (d1, d2)

/-- Counterexample to C1 as stated: this text contains an AMC-period clause
with two parseable dates (the second clause), yet the code searches only the
first pattern match, whose first date `99.99.9999` fails to parse, so all the
derived fields stay empty instead of holding `01-03-2024` etc. -/
theorem amc_any_clause_claim_cex :
    (scanOpt amcParseableAttempt
      ("AMC PERIOD: 99.99.9999 to 01.01.2024 AMC PERIOD: 01.03.2024 to 28.02.2025" : String).data).isSome
      = true ∧
    lookupField
      (extract_details "AMC PERIOD: 99.99.9999 to 01.01.2024 AMC PERIOD: 01.03.2024 to 28.02.2025"
        "" []) "Amc Start Date" = some (.str "") ∧
    FieldVal.str "" ≠ FieldVal.str "01-03-2024" := by
  refine ⟨by decide, by decide, by decide⟩

/-- Claim C2 is violated by the code: with an AMC period starting in March
9999 both dates parse strictly, so start and end are assigned and the first
three service months are computed, but the fourth offset (February of year
10000) cannot be represented by a timestamp, the addition raises, and the
bare `except` leaves the record partially populated — five of the six derived
fields set, `4th Service Month` empty.  (On pandas before 2.0 the exception
already hits the first offset, leaving start and end set and all four service
months empty: still a partial record.) -/
theorem amc_partial_population_at_year_9999 :
    lookupField (extract_details "AMC PERIOD: 01.03.9999 to 28.02.9999" "" [])
      "Amc Start Date" = some (.str "01-03-9999") ∧
    lookupField (extract_details "AMC PERIOD: 01.03.9999 to 28.02.9999" "" [])
      "Amc End Date" = some (.str "28-02-9999") ∧
    lookupField (extract_details "AMC PERIOD: 01.03.9999 to 28.02.9999" "" [])
      "1st Service Month" = some (.str "May 9999") ∧
    lookupField (extract_details "AMC PERIOD: 01.03.9999 to 28.02.9999" "" [])
      "2nd Service Month" = some (.str "August 9999") ∧
    lookupField (extract_details "AMC PERIOD: 01.03.9999 to 28.02.9999" "" [])
      "3rd Service Month" = some (.str "November 9999") ∧
    lookupField (extract_details "AMC PERIOD: 01.03.9999 to 28.02.9999" "" [])
      "4th Service Month" = some (.str "") := by
  decide

/-! ## Claim C5: the upload loop -/

/-- Claim C5 (amended): the result set holds exactly one record per document
whose loaded text is non-blank — non-empty after stripping whitespace, the
`txt.strip()` truthiness test of the source — in upload order; and a document
whose loading failed (blank text) is skipped without disturbing the rest of
the batch. -/
theorem batch_skips_blank_text_docs :
    (∀ docs : List (String × DocLoad),
      processBatch docs =
        (docs.filter fun p => pyStripS (loadResult p.2).1 ≠ "").map fun p =>
          extract_details (loadResult p.2).1 (extract_contract_number_from_filename p.1)
            (loadResult p.2).2) ∧
    (∀ (pre post : List (String × DocLoad)) (name : String),
      processBatch (pre ++ (name, DocLoad.err) :: post) =
        processBatch pre ++ processBatch post) := by
  constructor
  · intro docs
    induction docs with
    | nil => rfl
    | cons p rest ih =>
      obtain ⟨name, dl⟩ := p
      by_cases h : pyStripS (loadResult dl).1 = ""
      · simp [processBatch, h, ih]
      · simp [processBatch, h, ih]
  · intro pre post name
    induction pre with
    | nil =>
      have h0 : pyStripS (loadResult DocLoad.err).1 = "" := by decide
      simp [processBatch, h0]
    | cons p rest ih =>
      obtain ⟨n2, d2⟩ := p
      by_cases h : pyStripS (loadResult d2).1 = ""
      · simp [processBatch, h, ih]
      · simp [processBatch, h, ih]

/-- Counterexample to C5 as stated: a document whose loaded text is a single
space has non-empty text, so the claim's "exactly one record per document
with non-empty text" demands a record for it; the loop tests the stripped
text and produces none. -/
theorem batch_whitespace_text_cex :
    processBatch [("a.docx", DocLoad.ok " " [])] = [] ∧
    ([("a.docx", DocLoad.ok " " [])].filter fun p => (loadResult p.2).1 ≠ "").length = 1 := by
  refine ⟨by decide, by decide⟩

/-! ## Claim C7: the filename rule -/

/-- A decomposition of `fn` of the shape the claim's filename rule describes:
somewhere in `fn`, the literal `CC`, then a nonempty digit run `d`, then an
underscore. -/
def CCDecomp (fn : String) (a d b : List Char) : Prop :=
  fn.data = a ++ 'C' :: 'C' :: (d ++ '_' :: b) ∧ d ≠ [] ∧ ∀ c ∈ d, c.isDigit

theorem takeWhile_all_append (p : Char → Bool) (d : List Char)
    (h : ∀ c ∈ d, p c) (x : Char) (rest : List Char) (hx : ¬ p x = true) :
    (d ++ x :: rest).takeWhile p = d ∧ (d ++ x :: rest).dropWhile p = x :: rest := by
  induction d with
  | nil => simp [List.takeWhile, List.dropWhile, hx]
  | cons c cs ih =>
    have hc : p c = true := h c (by simp)
    have ih2 := ih fun c2 h2 => h c2 (by simp [h2])
    simp [List.takeWhile, List.dropWhile, hc, ih2.1, ih2.2]

theorem ccAttempt_complete (d b : List Char) (hd : d ≠ []) (hdig : ∀ c ∈ d, c.isDigit) :
    ccAttempt ('C' :: 'C' :: (d ++ '_' :: b)) = some d := by
  have h := takeWhile_all_append Char.isDigit d hdig '_' b (by decide)
  simp only [ccAttempt, h.1, h.2]
  simp [List.isEmpty_iff, hd]

theorem ccAttempt_sound (s run : List Char) (h : ccAttempt s = some run) :
    ∃ b, s = 'C' :: 'C' :: (run ++ '_' :: b) ∧ run ≠ [] ∧ ∀ c ∈ run, c.isDigit := by
  match s with
  | [] => simp [ccAttempt] at h
  | [c] => simp [ccAttempt] at h
  | c1 :: c2 :: rest =>
    simp only [ccAttempt] at h
    by_cases hc : c1 = 'C' ∧ c2 = 'C' ∧ (rest.dropWhile Char.isDigit).head? = some '_' ∧
        ¬ (rest.takeWhile Char.isDigit).isEmpty
    · obtain ⟨rfl, rfl, hhead, hne⟩ := hc
      rw [if_pos ⟨rfl, rfl, hhead, hne⟩] at h
      have hrun : run = rest.takeWhile Char.isDigit := (Option.some.inj h).symm
      obtain ⟨tail, hdrop⟩ : ∃ tail, rest.dropWhile Char.isDigit = '_' :: tail := by
        cases hd2 : rest.dropWhile Char.isDigit with
        | nil => rw [hd2] at hhead; simp at hhead
        | cons x t =>
          rw [hd2] at hhead
          simp only [List.head?] at hhead
          have hx := Option.some.inj hhead
          subst hx
          exact ⟨t, rfl⟩
      refine ⟨tail, ?_, ?_, ?_⟩
      · have h5 : rest.takeWhile Char.isDigit ++ '_' :: tail = rest := by
          rw [← hdrop]
          exact List.takeWhile_append_dropWhile Char.isDigit rest
        rw [hrun]
        exact congrArg (fun l => 'C' :: 'C' :: l) h5.symm
      · rw [hrun]
        simpa [List.isEmpty_iff] using hne
      · intro c hc2
        rw [hrun] at hc2
        exact List.mem_takeWhile_imp hc2
    · rw [if_neg hc] at h
      exact absurd h (by simp)

theorem scanOpt_eq_some {α : Type} (f : List Char → Option α) (s : List Char) (x : α)
    (h : scanOpt f s = some x) :
    ∃ a b, s = a ++ b ∧ f b = some x ∧
      ∀ a2 b2, s = a2 ++ b2 → a2.length < a.length → f b2 = none := by
  induction s with
  | nil =>
    refine ⟨[], [], rfl, h, ?_⟩
    intro a2 b2 _ h2
    simp at h2
  | cons c rest ih =>
    by_cases hf : f (c :: rest) = none
    · have h2 : scanOpt f rest = some x := by
        simpa [scanOpt, hf] using h
      obtain ⟨a, b, hab, hfb, hmin⟩ := ih h2
      refine ⟨c :: a, b, by simp [hab], hfb, ?_⟩
      intro a2 b2 hs hlen
      cases a2 with
      | nil =>
        rw [List.nil_append] at hs
        rw [← hs]
        exact hf
      | cons c2 a3 =>
        rw [List.cons_append] at hs
        injection hs with hc2 hrest
        exact hmin a3 b2 hrest (Nat.lt_of_succ_lt_succ (by simpa using hlen))
    · obtain ⟨y, hy⟩ := Option.ne_none_iff_exists'.mp hf
      have hx : y = x := by
        have h3 : scanOpt f (c :: rest) = some y := by simp [scanOpt, hy]
        rw [h3] at h
        exact Option.some.inj h
      refine ⟨[], c :: rest, rfl, by rw [hy, hx], ?_⟩
      intro a2 b2 _ h2
      simp at h2

theorem scanOpt_isSome_of_split {α : Type} (f : List Char → Option α) (a b : List Char)
    (x : α) (h : f b = some x) : (scanOpt f (a ++ b)).isSome := by
  induction a with
  | nil =>
    cases b with
    | nil => simp [scanOpt, h]
    | cons c rest => simp [scanOpt, h]
  | cons c rest ih =>
    simp only [List.cons_append, scanOpt]
    cases hf : f (c :: (rest ++ b)) with
    | some y => simp
    | none => exact ih

/-- Claim C7: the filename parser returns the digit run of the first (leftmost)
`CC<digits>_` substring, and the empty string exactly when no such substring
exists. -/
theorem contract_number_filename_rule (fn : String) :
    ((∃ a d b, CCDecomp fn a d b) →
      extract_contract_number_from_filename fn ≠ "" ∧
      ∃ a b, CCDecomp fn a (extract_contract_number_from_filename fn).data b ∧
        ∀ a2 d2 b2, CCDecomp fn a2 d2 b2 → a.length ≤ a2.length) ∧
    ((¬ ∃ a d b, CCDecomp fn a d b) → extract_contract_number_from_filename fn = "") := by
  constructor
  · rintro ⟨a0, d0, b0, hsplit, hd0, hdig0⟩
    have hsome : (scanOpt ccAttempt fn.data).isSome := by
      rw [hsplit]
      exact scanOpt_isSome_of_split ccAttempt a0 _ d0 (ccAttempt_complete d0 b0 hd0 hdig0)
    obtain ⟨run, hrun⟩ := Option.isSome_iff_exists.mp hsome
    have hres : extract_contract_number_from_filename fn = run.asString := by
      simp [extract_contract_number_from_filename, hrun]
    obtain ⟨a1, b1, hab, hatt, hmin⟩ := scanOpt_eq_some ccAttempt fn.data run hrun
    obtain ⟨b2, hb2, hrunne, hrundig⟩ := ccAttempt_sound b1 run hatt
    have hdata : (extract_contract_number_from_filename fn).data = run := by
      rw [hres, data_asString]
    constructor
    · rw [hres]
      intro hcontra
      exact hrunne (by simpa [data_asString] using congrArg String.data hcontra)
    · refine ⟨a1, b2, ⟨by rw [hdata, hab, hb2], by rw [hdata]; exact hrunne,
        by rw [hdata]; exact hrundig⟩, ?_⟩
      intro a2 d2 b3 ⟨hsplit2, hd2, hdig2⟩
      by_contra hlt
      have hlt2 : a2.length < a1.length := Nat.lt_of_not_le hlt
      have hnone := hmin a2 ('C' :: 'C' :: (d2 ++ '_' :: b3)) hsplit2 hlt2
      rw [ccAttempt_complete d2 b3 hd2 hdig2] at hnone
      exact absurd hnone (by simp)
  · intro hno
    cases hscan : scanOpt ccAttempt fn.data with
    | none => simp [extract_contract_number_from_filename, hscan]
    | some run =>
      exfalso
      obtain ⟨a1, b1, hab, hatt, _⟩ := scanOpt_eq_some ccAttempt fn.data run hscan
      obtain ⟨b2, hb2, hrunne, hrundig⟩ := ccAttempt_sound b1 run hatt
      exact hno ⟨a1, run, b2, by rw [hab, hb2], hrunne, hrundig⟩

/-- Witness for C7 at the spec's example filename. -/
theorem contract_number_filename_witness :
    extract_contract_number_from_filename "CC1234_Client.docx" = "1234" ∧
    ∃ a b, CCDecomp "CC1234_Client.docx" a
      (extract_contract_number_from_filename "CC1234_Client.docx").data b := by
  have h := (contract_number_filename_rule "CC1234_Client.docx").1
    ⟨[], ['1', '2', '3', '4'], ("Client.docx" : String).data, by decide, by decide, by decide⟩
  obtain ⟨hne, a, b, hdec, hmin⟩ := h
  exact ⟨by decide, a, b, hdec⟩

end W2X
